import Mathlib

/-!
Shallow embedding of `lib/sqlalchemy/dialects/firebird/base.py`, the
Firebird dialect adapter of SQLAlchemy, together with proofs of the
specification's testable properties about it.

Python strings are modelled as `List Char` (identifiers handled by this
dialect are ASCII catalog names); the Python value `None` is modelled by
`Option.none`.  `str.lower`/`str.upper` use Lean's `Char.toLower` /
`Char.toUpper`, which implement exactly the ASCII case mapping Python
applies on such strings.
-/

/-- Python `str.lower()` on a string modelled as a character list. -/
def pyLower (s : List Char) : List Char := s.map Char.toLower

/-- Python `str.upper()` on a string modelled as a character list. -/
def pyUpper (s : List Char) : List Char := s.map Char.toUpper

/-- Whitespace characters stripped by Python's `str.rstrip()` (ASCII range). -/
def isPySpace (c : Char) : Bool :=
  decide (c.toNat = 32 ∨ c.toNat = 9 ∨ c.toNat = 10 ∨ c.toNat = 13 ∨
          c.toNat = 11 ∨ c.toNat = 12)

/-- Python `str.rstrip()`: remove trailing whitespace. -/
def pyRstrip (s : List Char) : List Char :=
  (s.reverse.dropWhile isPySpace).reverse

/-- The `RESERVED_WORDS` set of the Firebird dialect, transcribed from the
source (including the duplicated `"release"` entry, harmless for
membership). -/
def RESERVED_WORDS : List String :=
   ["action", "active", "add", "admin", "after", "all", "alter", "and", "any",
    "as", "asc", "ascending", "at", "auto", "autoddl", "avg", "based", "basename",
    "base_name", "before", "begin", "between", "bigint", "blob", "blobedit", "buffer",
    "by", "cache", "cascade", "case", "cast", "char", "character", "character_length",
    "char_length", "check", "check_point_len", "check_point_length", "close", "collate",
    "collation", "column", "commit", "committed", "compiletime", "computed", "conditional",
    "connect", "constraint", "containing", "continue", "count", "create", "cstring",
    "current", "current_connection", "current_date", "current_role", "current_time",
    "current_timestamp", "current_transaction", "current_user", "cursor", "database",
    "date", "day", "db_key", "debug", "dec", "decimal", "declare", "default", "delete",
    "desc", "descending", "describe", "descriptor", "disconnect", "display", "distinct",
    "do", "domain", "double", "drop", "echo", "edit", "else", "end", "entry_point",
    "escape", "event", "exception", "execute", "exists", "exit", "extern", "external",
    "extract", "fetch", "file", "filter", "float", "for", "foreign", "found", "free_it",
    "from", "full", "function", "gdscode", "generator", "gen_id", "global", "goto",
    "grant", "group", "group_commit_", "group_commit_wait", "having", "help", "hour",
    "if", "immediate", "in", "inactive", "index", "indicator", "init", "inner", "input",
    "input_type", "insert", "int", "integer", "into", "is", "isolation", "isql", "join",
    "key", "lc_messages", "lc_type", "left", "length", "lev", "level", "like", "logfile",
    "log_buffer_size", "log_buf_size", "long", "manual", "max", "maximum", "maximum_segment",
    "max_segment", "merge", "message", "min", "minimum", "minute", "module_name", "month",
    "names", "national", "natural", "nchar", "no", "noauto", "not", "null", "numeric",
    "num_log_buffers", "num_log_bufs", "octet_length", "of", "on", "only", "open", "option",
    "or", "order", "outer", "output", "output_type", "overflow", "page", "pagelength",
    "pages", "page_size", "parameter", "password", "plan", "position", "post_event",
    "precision", "prepare", "primary", "privileges", "procedure", "protected", "public",
    "quit", "raw_partitions", "rdb$db_key", "read", "real", "record_version", "recreate",
    "references", "release", "release", "reserv", "reserving", "restrict", "retain",
    "return", "returning_values", "returns", "revoke", "right", "role", "rollback",
    "row_count", "runtime", "savepoint", "schema", "second", "segment", "select",
    "set", "shadow", "shared", "shell", "show", "singular", "size", "smallint",
    "snapshot", "some", "sort", "sqlcode", "sqlerror", "sqlwarning", "stability",
    "starting", "starts", "statement", "static", "statistics", "sub_type", "sum",
    "suspend", "table", "terminator", "then", "time", "timestamp", "to", "transaction",
    "translate", "translation", "trigger", "trim", "type", "uncommitted", "union",
    "unique", "update", "upper", "user", "using", "value", "values", "varchar",
    "variable", "varying", "version", "view", "wait", "wait_time", "weekday", "when",
    "whenever", "where", "while", "with", "work", "write", "year", "yearday"]

/-- Identifier-syntax characters: ASCII letters, digits, underscore (code 95). -/
def isLegalChar (c : Char) : Bool :=
  decide ((65 ≤ c.toNat ∧ c.toNat ≤ 90) ∨ (97 ≤ c.toNat ∧ c.toNat ≤ 122) ∨
          (48 ≤ c.toNat ∧ c.toNat ≤ 57) ∨ c.toNat = 95)

/-- Is the character an ASCII digit? -/
def isDigitChar (c : Char) : Bool :=
  decide (48 ≤ c.toNat ∧ c.toNat ≤ 57)

/-- Does the name start with a digit (an illegal initial character)? -/
def headDigit : List Char → Bool
  | [] => false
  | c :: _ => isDigitChar c

/-- Modelled from the spec: the shared identifier-quoting policy
`IdentifierPreparer._requires_quotes` lives in the host framework and is not
under `src/`.  Per the spec, a name requires quoting iff its lower-casing is
in the reserved-word set, or it fails the identifier-syntax check: empty, a
character outside alphanumerics/underscore, or a leading digit. -/
def requires_quotes (value : List Char) : Bool :=
  RESERVED_WORDS.contains (String.mk (pyLower value))
  || value.isEmpty
  || !(value.all isLegalChar)
  || headDigit value

/-- `FBDialect.normalize_name` (backend → portable): strip trailing padding
spaces; `None` stays `None`; an all-uppercase name that would not require
quoting when lower-cased is folded to lowercase; anything else is kept. -/
def normalize_name : Option (List Char) → Option (List Char)
  | none => none
  | some name0 =>
    let name := pyRstrip name0
    if pyUpper name = name ∧ requires_quotes (pyLower name) = false then
      some (pyLower name)
    else
      some name

/-- `FBDialect.denormalize_name` (portable → backend): `None` stays `None`;
an all-lowercase name that does not require quoting is upper-cased;
anything else is kept. -/
def denormalize_name : Option (List Char) → Option (List Char)
  | none => none
  | some name =>
    if pyLower name = name ∧ requires_quotes (pyLower name) = false then
      some (pyUpper name)
    else
      some name

/-! ### Character-level lemmas about the ASCII case mapping -/

theorem char_eq_of_toNat_eq {c d : Char} (h : c.toNat = d.toNat) : c = d :=
  Char.eq_of_val_eq (UInt32.ext h)

theorem char_toNat_ofNat_of_valid {n : Nat} (h : n.isValidChar) :
    (Char.ofNat n).toNat = n := by
  unfold Char.ofNat
  rw [dif_pos h]
  rfl

theorem char_ofNat_toNat (c : Char) : Char.ofNat c.toNat = c :=
  char_eq_of_toNat_eq (char_toNat_ofNat_of_valid c.valid)

theorem char_toLower_eq (c : Char) :
    c.toLower = if 65 ≤ c.toNat ∧ c.toNat ≤ 90 then Char.ofNat (c.toNat + 32) else c := rfl

theorem char_toUpper_eq (c : Char) :
    c.toUpper = if 97 ≤ c.toNat ∧ c.toNat ≤ 122 then Char.ofNat (c.toNat - 32) else c := rfl

theorem toNat_toLower (c : Char) :
    c.toLower.toNat = if 65 ≤ c.toNat ∧ c.toNat ≤ 90 then c.toNat + 32 else c.toNat := by
  rw [char_toLower_eq]
  split
  · next h => exact char_toNat_ofNat_of_valid (Or.inl (by omega))
  · rfl

theorem toNat_toUpper (c : Char) :
    c.toUpper.toNat = if 97 ≤ c.toNat ∧ c.toNat ≤ 122 then c.toNat - 32 else c.toNat := by
  rw [char_toUpper_eq]
  split
  · next h => exact char_toNat_ofNat_of_valid (Or.inl (by omega))
  · rfl

theorem toLower_toLower (c : Char) : c.toLower.toLower = c.toLower := by
  apply char_eq_of_toNat_eq
  rw [toNat_toLower c.toLower, toNat_toLower c]
  by_cases h : 65 ≤ c.toNat ∧ c.toNat ≤ 90
  · rw [if_pos h, if_neg (by omega)]
  · rw [if_neg h, if_neg h]

theorem toUpper_toUpper (c : Char) : c.toUpper.toUpper = c.toUpper := by
  apply char_eq_of_toNat_eq
  rw [toNat_toUpper c.toUpper, toNat_toUpper c]
  by_cases h : 97 ≤ c.toNat ∧ c.toNat ≤ 122
  · rw [if_pos h, if_neg (by omega)]
  · rw [if_neg h, if_neg h]

theorem toLower_fixed_of_not_upper {c : Char} (h : ¬(65 ≤ c.toNat ∧ c.toNat ≤ 90)) :
    c.toLower = c := by
  rw [char_toLower_eq, if_neg h]

theorem toUpper_fixed_of_not_lower {c : Char} (h : ¬(97 ≤ c.toNat ∧ c.toNat ≤ 122)) :
    c.toUpper = c := by
  rw [char_toUpper_eq, if_neg h]

/-- If `c` is unchanged by upper-casing, lower-casing then upper-casing
returns `c`. -/
theorem toUpper_toLower_of_fixed {c : Char} (h : c.toUpper = c) :
    c.toLower.toUpper = c := by
  by_cases hc : 65 ≤ c.toNat ∧ c.toNat ≤ 90
  · apply char_eq_of_toNat_eq
    rw [toNat_toUpper c.toLower, toNat_toLower c, if_pos hc, if_pos (by omega)]
    omega
  · rw [toLower_fixed_of_not_upper hc]
    exact h

/-- If `c` is unchanged by lower-casing, upper-casing then lower-casing
returns `c`. -/
theorem toLower_toUpper_of_fixed {c : Char} (h : c.toLower = c) :
    c.toUpper.toLower = c := by
  by_cases hc : 97 ≤ c.toNat ∧ c.toNat ≤ 122
  · apply char_eq_of_toNat_eq
    rw [toNat_toLower c.toUpper, toNat_toUpper c, if_pos hc, if_pos (by omega)]
    omega
  · rw [toUpper_fixed_of_not_lower hc]
    exact h

theorem isLegalChar_toLower {c : Char} (h : isLegalChar c = true) :
    isLegalChar c.toLower = true := by
  simp only [isLegalChar, decide_eq_true_eq] at h ⊢
  rw [toNat_toLower]
  split <;> omega

theorem isLegalChar_toUpper {c : Char} (h : isLegalChar c = true) :
    isLegalChar c.toUpper = true := by
  simp only [isLegalChar, decide_eq_true_eq] at h ⊢
  rw [toNat_toUpper]
  split <;> omega

theorem isDigitChar_toLower (c : Char) : isDigitChar c.toLower = isDigitChar c := by
  simp only [isDigitChar, toNat_toLower, decide_eq_decide]
  split
  · next h => omega
  · exact Iff.rfl

theorem isDigitChar_toUpper (c : Char) : isDigitChar c.toUpper = isDigitChar c := by
  simp only [isDigitChar, toNat_toUpper, decide_eq_decide]
  split
  · next h => omega
  · exact Iff.rfl

theorem not_isPySpace_of_legal {c : Char} (h : isLegalChar c = true) :
    isPySpace c = false := by
  simp only [isLegalChar, decide_eq_true_eq] at h
  simp only [isPySpace, decide_eq_false_iff_not]
  omega

/-! ### List-level lemmas -/

theorem list_map_eq_self_iff {α : Type} (f : α → α) (l : List α) :
    l.map f = l ↔ ∀ x ∈ l, f x = x := by
  induction l with
  | nil => simp
  | cons a t ih =>
    simp only [List.map_cons, List.cons.injEq, List.mem_cons]
    constructor
    · rintro ⟨ha, ht⟩ x hx
      rcases hx with rfl | hx
      · exact ha
      · exact (ih.mp ht) x hx
    · intro hall
      exact ⟨hall a (Or.inl rfl), ih.mpr fun x hx => hall x (Or.inr hx)⟩

theorem dropWhile_eq_self_of_all {α : Type} (p : α → Bool) (l : List α)
    (h : ∀ c ∈ l, p c = false) : l.dropWhile p = l := by
  cases l with
  | nil => rfl
  | cons a t =>
    rw [List.dropWhile_cons]
    simp [h a (List.mem_cons_self a t)]

theorem pyRstrip_of_all_legal {n : List Char} (h : n.all isLegalChar = true) :
    pyRstrip n = n := by
  unfold pyRstrip
  rw [dropWhile_eq_self_of_all, List.reverse_reverse]
  intro c hc
  rw [List.mem_reverse] at hc
  exact not_isPySpace_of_legal (List.all_eq_true.mp h c hc)

theorem pyLower_pyLower (n : List Char) : pyLower (pyLower n) = pyLower n := by
  unfold pyLower
  rw [List.map_map]
  exact List.map_congr_left fun c _ => toLower_toLower c

theorem pyUpper_pyUpper (n : List Char) : pyUpper (pyUpper n) = pyUpper n := by
  unfold pyUpper
  rw [List.map_map]
  exact List.map_congr_left fun c _ => toUpper_toUpper c

theorem pyUpper_pyLower_of_upper_fixed {n : List Char} (h : pyUpper n = n) :
    pyUpper (pyLower n) = n := by
  unfold pyLower pyUpper
  rw [List.map_map]
  have hpt := (list_map_eq_self_iff Char.toUpper n).mp h
  calc n.map (Char.toUpper ∘ Char.toLower)
      = n.map id := List.map_congr_left fun c hc =>
        toUpper_toLower_of_fixed (hpt c hc)
    _ = n := List.map_id n

theorem pyLower_pyUpper_of_lower_fixed {n : List Char} (h : pyLower n = n) :
    pyLower (pyUpper n) = n := by
  unfold pyLower pyUpper
  rw [List.map_map]
  have hpt := (list_map_eq_self_iff Char.toLower n).mp h
  calc n.map (Char.toLower ∘ Char.toUpper)
      = n.map id := List.map_congr_left fun c hc =>
        toLower_toUpper_of_fixed (hpt c hc)
    _ = n := List.map_id n

theorem all_legal_pyLower {n : List Char} (h : n.all isLegalChar = true) :
    (pyLower n).all isLegalChar = true := by
  rw [List.all_eq_true] at h ⊢
  intro x hx
  rw [pyLower, List.mem_map] at hx
  obtain ⟨c, hc, rfl⟩ := hx
  exact isLegalChar_toLower (h c hc)

theorem all_legal_pyUpper {n : List Char} (h : n.all isLegalChar = true) :
    (pyUpper n).all isLegalChar = true := by
  rw [List.all_eq_true] at h ⊢
  intro x hx
  rw [pyUpper, List.mem_map] at hx
  obtain ⟨c, hc, rfl⟩ := hx
  exact isLegalChar_toUpper (h c hc)

theorem headDigit_pyLower (n : List Char) : headDigit (pyLower n) = headDigit n := by
  cases n with
  | nil => rfl
  | cons c t => simp [pyLower, headDigit, isDigitChar_toLower]

theorem headDigit_pyUpper (n : List Char) : headDigit (pyUpper n) = headDigit n := by
  cases n with
  | nil => rfl
  | cons c t => simp [pyUpper, headDigit, isDigitChar_toUpper]

theorem pyLower_ne_nil {n : List Char} (h : n ≠ []) : pyLower n ≠ [] := by
  cases n with
  | nil => exact absurd rfl h
  | cons c t => simp [pyLower]

theorem pyUpper_ne_nil {n : List Char} (h : n ≠ []) : pyUpper n ≠ [] := by
  cases n with
  | nil => exact absurd rfl h
  | cons c t => simp [pyUpper]

/-! ### Lemmas about the quoting policy -/

theorem requires_quotes_eq_false_of {value : List Char}
    (h1 : RESERVED_WORDS.contains (String.mk (pyLower value)) = false)
    (h2 : value ≠ [])
    (h3 : value.all isLegalChar = true)
    (h4 : headDigit value = false) :
    requires_quotes value = false := by
  unfold requires_quotes
  rw [h1, h3, h4]
  cases value with
  | nil => exact absurd rfl h2
  | cons c t => rfl

theorem of_requires_quotes_eq_false {value : List Char}
    (h : requires_quotes value = false) :
    RESERVED_WORDS.contains (String.mk (pyLower value)) = false ∧
    value ≠ [] ∧ value.all isLegalChar = true ∧ headDigit value = false := by
  unfold requires_quotes at h
  simp only [Bool.or_eq_false_iff, Bool.not_eq_false'] at h
  obtain ⟨⟨⟨hc, he⟩, ha⟩, hh⟩ := h
  refine ⟨hc, ?_, ha, hh⟩
  intro hnil
  rw [hnil] at he
  exact absurd he (by decide)

/-! ### Claims C1, C2, C8: identifier normalization -/

/-- Claim C1: for every identifier `n` that is all-uppercase, consists only of
identifier-legal characters with no leading digit, and is not a reserved word
(case-insensitively), `normalize_name` returns `n` lower-cased and
`denormalize_name` round-trips the result back to `n`. -/
theorem fb_C1 (n : List Char)
    (h_upper : pyUpper n = n)
    (h_ne : n ≠ [])
    (h_legal : n.all isLegalChar = true)
    (h_head : headDigit n = false)
    (h_res : RESERVED_WORDS.contains (String.mk (pyLower n)) = false) :
    normalize_name (some n) = some (pyLower n) ∧
    denormalize_name (normalize_name (some n)) = some n := by
  have hr : pyRstrip n = n := pyRstrip_of_all_legal h_legal
  have hrql : requires_quotes (pyLower n) = false := by
    apply requires_quotes_eq_false_of
    · rw [pyLower_pyLower]; exact h_res
    · exact pyLower_ne_nil h_ne
    · exact all_legal_pyLower h_legal
    · rw [headDigit_pyLower]; exact h_head
  have hnorm : normalize_name (some n) = some (pyLower n) := by
    simp only [normalize_name]
    rw [hr, if_pos ⟨h_upper, hrql⟩]
  refine ⟨hnorm, ?_⟩
  rw [hnorm]
  simp only [denormalize_name]
  rw [if_pos ⟨pyLower_pyLower n, by rw [pyLower_pyLower]; exact hrql⟩]
  rw [pyUpper_pyLower_of_upper_fixed h_upper]

/-- Claim C1 witness at the concrete identifier `EMPLOYEES`. -/
theorem fb_C1_witness :
    normalize_name (some "EMPLOYEES".data) = some (pyLower "EMPLOYEES".data) ∧
    denormalize_name (normalize_name (some "EMPLOYEES".data)) = some "EMPLOYEES".data :=
  fb_C1 "EMPLOYEES".data (by decide) (by decide) (by decide) (by decide) (by decide)

/-- Claim C2: for every identifier `n` that does not require quoting
(in particular every mixed-case such identifier),
`normalize_name (denormalize_name n) = normalize_name n`. -/
theorem fb_C2 (n : List Char) (h : requires_quotes n = false) :
    normalize_name (denormalize_name (some n)) = normalize_name (some n) := by
  obtain ⟨hres, hne, hlegal, hhead⟩ := of_requires_quotes_eq_false h
  by_cases hl : pyLower n = n
  · -- all-lowercase (or letterless) name: denormalize upper-cases it
    have hrql : requires_quotes (pyLower n) = false := by rw [hl]; exact h
    have hden : denormalize_name (some n) = some (pyUpper n) := by
      simp only [denormalize_name]
      rw [if_pos ⟨hl, hrql⟩]
    have hlu : pyLower (pyUpper n) = n := pyLower_pyUpper_of_lower_fixed hl
    have hnu : normalize_name (some (pyUpper n)) = some n := by
      simp only [normalize_name]
      rw [pyRstrip_of_all_legal (all_legal_pyUpper hlegal)]
      rw [if_pos ⟨pyUpper_pyUpper n, by rw [hlu]; exact h⟩, hlu]
    rw [hden, hnu]
    simp only [normalize_name]
    rw [pyRstrip_of_all_legal hlegal]
    by_cases hu : pyUpper n = n
    · rw [if_pos ⟨hu, hrql⟩, hl]
    · rw [if_neg (fun hc => hu hc.1)]
  · -- name contains an uppercase letter: denormalize keeps it unchanged
    have hden : denormalize_name (some n) = some n := by
      simp only [denormalize_name]
      rw [if_neg (fun hc => hl hc.1)]
    rw [hden]

/-- Claim C2 witness at the concrete mixed-case identifier `Employee_Id`. -/
theorem fb_C2_witness :
    normalize_name (denormalize_name (some "Employee_Id".data)) =
      normalize_name (some "Employee_Id".data) :=
  fb_C2 "Employee_Id".data (by decide)

/-- Claim C8 counterexample: the empty string does not map to the absence
value — both functions return the empty string itself, so the claim's
"empty string returns the absence value" is false on the code. -/
theorem fb_C8_counterexample :
    normalize_name (some "".data) = some "".data ∧
    denormalize_name (some "".data) = some "".data ∧
    normalize_name (some "".data) ≠ none ∧
    denormalize_name (some "".data) ≠ none := by
  refine ⟨?_, ?_, ?_, ?_⟩ <;> decide

/-- Claim C8 amended: the absence value maps to the absence value under both
functions; the empty string maps to the empty string (unchanged), not to the
absence value. -/
theorem fb_C8_amended :
    normalize_name none = none ∧ denormalize_name none = none ∧
    normalize_name (some "".data) = some "".data ∧
    denormalize_name (some "".data) = some "".data := by
  refine ⟨rfl, rfl, ?_, ?_⟩ <;> decide

/-! ### Claim C3: SELECT precolumns and the limit-clause hook -/

/-- The state of a SELECT construct consumed by
`FBCompiler.get_select_precolumns`: `_limit` / `_offset` are `None` or an
integer (Python truthiness: `None` and `0` are both falsy), `_distinct` is a
flag. -/
structure SelectStmt where
  _limit : Option Int
  _offset : Option Int
  _distinct : Bool

/-- Python truthiness of the optional integer attributes of a SELECT. -/
def truthyOptInt : Option Int → Bool
  | none => false
  | some k => decide (k ≠ 0)

/-- `FBCompiler.get_select_precolumns`: Firebird puts limit and offset right
after the SELECT keyword, appending `FIRST n `, then `SKIP m `, then
`DISTINCT ` to the accumulating result string. -/
def get_select_precolumns (select : SelectStmt) : String :=
  let result := ""
  let result := if truthyOptInt select._limit then
      result ++ "FIRST " ++ toString (select._limit.getD 0) ++ " " else result
  let result := if truthyOptInt select._offset then
      result ++ "SKIP " ++ toString (select._offset.getD 0) ++ " " else result
  let result := if select._distinct then result ++ "DISTINCT " else result
  result

/-- `FBCompiler.limit_clause`: already taken care of in
`get_select_precolumns`, so always the empty string. -/
def limit_clause (_select : SelectStmt) : String := ""

/-- Claim C3 counterexample: for limit 5, offset 10, distinct set, the
fragment is `"FIRST 5 SKIP 10 DISTINCT "`, not the claimed
`"DISTINCT FIRST 5 SKIP 10 "` — the source appends `DISTINCT ` last. -/
theorem fb_C3_counterexample :
    get_select_precolumns ⟨some 5, some 10, true⟩ ≠ "DISTINCT FIRST 5 SKIP 10 " ∧
    get_select_precolumns ⟨some 5, some 10, true⟩ = "FIRST 5 SKIP 10 DISTINCT " := by
  refine ⟨?_, ?_⟩ <;> decide

/-- Claim C3 amended: the precolumn fragment for a SELECT with limit 5,
offset 10 and distinct set is exactly `"FIRST 5 SKIP 10 DISTINCT "` (limit,
then offset, then the distinct flag, per the literal format strings), and
`limit_clause` returns the empty string for every select. -/
theorem fb_C3_amended :
    get_select_precolumns ⟨some 5, some 10, true⟩ = "FIRST 5 SKIP 10 DISTINCT " ∧
    ∀ s : SelectStmt, limit_clause s = "" :=
  ⟨by decide, fun _ => rfl⟩

/-! ### Claim C4: the boolean type's bind and result processors -/

/-- A universe of DBAPI-level Python values flowing through the boolean
type's processors. -/
inductive PyVal where
  | none
  | bool (b : Bool)
  | int (n : Int)
  | str (s : String)
deriving DecidableEq

/-- Python truthiness on `PyVal`. -/
def pyTruthy : PyVal → Bool
  | .none => false
  | .bool b => b
  | .int n => decide (n ≠ 0)
  | .str s => decide (s ≠ "")

/-- `_FBBoolean.bind_processor`: `True ↦ 1`, `False ↦ 0`, `None ↦ None`,
and any other value maps to its truthiness (`value and True or False`). -/
def fb_bool_bind_process : PyVal → PyVal
  | .bool true => .int 1
  | .bool false => .int 0
  | .none => .none
  | v => .bool (pyTruthy v)

/-- `_FBBoolean.result_processor`: `None ↦ None`, and any other value maps
to its truthiness (`value and True or False`). -/
def fb_bool_result_process : PyVal → PyVal
  | .none => .none
  | v => .bool (pyTruthy v)

/-- Claim C4: the bind processor maps True to 1, False to 0 and None to
None; the result processor maps any truthy value to True, any falsy
non-None value to False, and None to None; reads of 1 and 0 round-trip to
True and False. -/
theorem fb_C4 :
    fb_bool_bind_process (.bool true) = .int 1 ∧
    fb_bool_bind_process (.bool false) = .int 0 ∧
    fb_bool_bind_process .none = .none ∧
    (∀ v : PyVal, v ≠ .none → pyTruthy v = true →
      fb_bool_result_process v = .bool true) ∧
    (∀ v : PyVal, v ≠ .none → pyTruthy v = false →
      fb_bool_result_process v = .bool false) ∧
    fb_bool_result_process .none = .none ∧
    fb_bool_result_process (fb_bool_bind_process (.bool true)) = .bool true ∧
    fb_bool_result_process (fb_bool_bind_process (.bool false)) = .bool false ∧
    fb_bool_result_process (fb_bool_bind_process .none) = .none := by
  refine ⟨rfl, rfl, rfl, ?_, ?_, rfl, by decide, by decide, rfl⟩
  · intro v hne ht
    cases v with
    | none => exact absurd rfl hne
    | bool b => simp only [fb_bool_result_process]; rw [ht]
    | int n => simp only [fb_bool_result_process]; rw [ht]
    | str s => simp only [fb_bool_result_process]; rw [ht]
  · intro v hne ht
    cases v with
    | none => exact absurd rfl hne
    | bool b => simp only [fb_bool_result_process]; rw [ht]
    | int n => simp only [fb_bool_result_process]; rw [ht]
    | str s => simp only [fb_bool_result_process]; rw [ht]

/-- Claim C4 witness: concrete truthy and falsy non-None reads. -/
theorem fb_C4_witness :
    fb_bool_result_process (.int 7) = .bool true ∧
    fb_bool_result_process (.str "") = .bool false :=
  ⟨fb_C4.2.2.2.1 (.int 7) (by decide) (by decide),
   fb_C4.2.2.2.2.1 (.str "") (by decide) (by decide)⟩

/-! ### Claim C5: initialize and legacy-grammar detection -/

/-- SQLAlchemy column type descriptors appearing in the Firebird
`ischema_names` table. -/
inductive SAType where
  | SMALLINT | BIGINT | FLOAT | DATE | TIME | TEXT | NUMERIC | TIMESTAMP
  | VARCHAR | CHAR | BLOB
deriving DecidableEq

/-- The `ischema_names` table mapping Firebird catalog type names to
SQLAlchemy types, transcribed from the source. -/
def ischema_names : List (String × SAType) :=
  [("SHORT", .SMALLINT), ("LONG", .BIGINT), ("QUAD", .FLOAT), ("FLOAT", .FLOAT),
   ("DATE", .DATE), ("TIME", .TIME), ("TEXT", .TEXT), ("INT64", .NUMERIC),
   ("DOUBLE", .FLOAT), ("TIMESTAMP", .TIMESTAMP), ("VARYING", .VARCHAR),
   ("CSTRING", .CHAR), ("BLOB", .BLOB)]

/-- Python tuple `>` on integer tuples: lexicographic, with a longer tuple
beating an equal shorter one. -/
def pyTupleGt : List Nat → List Nat → Bool
  | [], [] => false
  | [], _ :: _ => false
  | _ :: _, [] => true
  | a :: as, b :: bs =>
    if a > b then true else if a < b then false else pyTupleGt as bs

/-- Association-list update modelling Python `d[key] = value` on a dict
copy (replaces an existing entry in place, appends a missing one). -/
def assocSet {α : Type} (l : List (String × α)) (key : String) (v : α) :
    List (String × α) :=
  match l with
  | [] => [(key, v)]
  | (k, w) :: t => if k = key then (k, v) :: t else (k, w) :: assocSet t key v

/-- The dialect state touched by `FBDialect.initialize`. -/
structure FBDialectState where
  _version_two : Bool
  ischema : List (String × SAType)

/-- `FBDialect.initialize`, restricted to the state the claim is about:
`_version_two := server_version_info > (2,)`; when that is false the
`ischema_names` copy gets its `TIMESTAMP` entry remapped to the date-only
type `DATE` (the accompanying legacy `colspecs` swap concerns a separate
type-code table not mentioned by this claim). -/
def initialize_dialect (server_version_info : List Nat) : FBDialectState :=
  let vtwo := pyTupleGt server_version_info [2]
  if vtwo then
    { _version_two := true, ischema := ischema_names }
  else
    { _version_two := false,
      ischema := assocSet ischema_names "TIMESTAMP" .DATE }

/-- Claim C5: a server version with major component 1 turns legacy-grammar
mode on (`_version_two = false`) and remaps the TIMESTAMP entry of the
type-name table to the date-only type; major component 3 sets
`_version_two = true` and leaves the table unchanged. -/
theorem fb_C5 (rest : List Nat) :
    (initialize_dialect (1 :: rest))._version_two = false ∧
    (initialize_dialect (1 :: rest)).ischema.lookup "TIMESTAMP" =
      some SAType.DATE ∧
    (initialize_dialect (3 :: rest))._version_two = true ∧
    (initialize_dialect (3 :: rest)).ischema = ischema_names := by
  have h1 : pyTupleGt (1 :: rest) [2] = false := by simp [pyTupleGt]
  have h3 : pyTupleGt (3 :: rest) [2] = true := by simp [pyTupleGt]
  refine ⟨?_, ?_, ?_, ?_⟩
  · simp [initialize_dialect, h1]
  · simp only [initialize_dialect, h1]
    decide
  · simp [initialize_dialect, h3]
  · simp [initialize_dialect, h3]

/-! ### Claim C6: RETURNING clause injection -/

/-- A return-expression in a `firebird_returning` list: either a single
column/expression carrying its compiled text (the output of
`self.process(c, within_columns_clause=True)`, modelled from the spec as
the expression's processed text, since the generic compiler is host-framework
code outside `src/`), or a whole-table selectable carrying the processed
texts of its constituent columns. -/
inductive RetExpr where
  | col (text : String)
  | selectable (cols : List String)

/-- The `flatten_columnlist` generator inside `FBCompiler._append_returning`:
whole-table (selectable) entries expand into their constituent columns. -/
def flatten_columnlist : List RetExpr → List String
  | [] => []
  | .col t :: rest => t :: flatten_columnlist rest
  | .selectable cs :: rest => cs ++ flatten_columnlist rest

/-- `FBCompiler._append_returning`: append ` RETURNING ` and the
comma-separated processed expressions to the compiled statement text. -/
def _append_returning (text : String) (returning_cols : List RetExpr) : String :=
  text ++ " RETURNING " ++ String.intercalate ", " (flatten_columnlist returning_cols)

/-- An INSERT/UPDATE/DELETE statement as the Firebird compiler sees it: the
text produced by the superclass visit (host-framework code outside `src/`,
carried as a field), and the optional `firebird_returning` kwarg. -/
structure DmlStmt where
  base_text : String
  firebird_returning : Option (List RetExpr)

/-- `FBCompiler.visit_update`. -/
def visit_update (update_stmt : DmlStmt) : String :=
  match update_stmt.firebird_returning with
  | some cols => _append_returning update_stmt.base_text cols
  | none => update_stmt.base_text

/-- `FBCompiler.visit_insert`. -/
def visit_insert (insert_stmt : DmlStmt) : String :=
  match insert_stmt.firebird_returning with
  | some cols => _append_returning insert_stmt.base_text cols
  | none => insert_stmt.base_text

/-- `FBCompiler.visit_delete`. -/
def visit_delete (delete_stmt : DmlStmt) : String :=
  match delete_stmt.firebird_returning with
  | some cols => _append_returning delete_stmt.base_text cols
  | none => delete_stmt.base_text

/-- Claim C6: a statement carrying a returning-expression list compiles to
the base text with ` RETURNING ` and the comma-separated processed
expressions appended, selectable entries expanding into their columns; a
statement without the list compiles to the base text unchanged. -/
theorem fb_C6 (s : DmlStmt) :
    (∀ cols, s.firebird_returning = some cols →
      visit_insert s = s.base_text ++ " RETURNING " ++
          String.intercalate ", " (flatten_columnlist cols) ∧
      visit_update s = s.base_text ++ " RETURNING " ++
          String.intercalate ", " (flatten_columnlist cols) ∧
      visit_delete s = s.base_text ++ " RETURNING " ++
          String.intercalate ", " (flatten_columnlist cols)) ∧
    (s.firebird_returning = none →
      visit_insert s = s.base_text ∧ visit_update s = s.base_text ∧
      visit_delete s = s.base_text) ∧
    (∀ cs rest, flatten_columnlist (.selectable cs :: rest) =
      cs ++ flatten_columnlist rest) := by
  refine ⟨?_, ?_, fun _ _ => rfl⟩
  · intro cols h
    refine ⟨?_, ?_, ?_⟩ <;>
      simp [visit_insert, visit_update, visit_delete, _append_returning, h]
  · intro h
    refine ⟨?_, ?_, ?_⟩ <;>
      simp [visit_insert, visit_update, visit_delete, h]

/-- Claim C6 witness: a concrete UPDATE with returning list `[id, salary]`. -/
theorem fb_C6_witness :
    visit_insert ⟨"U", some [.col "id", .col "salary"]⟩ =
      "U" ++ " RETURNING " ++ String.intercalate ", "
        (flatten_columnlist [.col "id", .col "salary"]) ∧
    visit_update ⟨"U", some [.col "id", .col "salary"]⟩ =
      "U" ++ " RETURNING " ++ String.intercalate ", "
        (flatten_columnlist [.col "id", .col "salary"]) ∧
    visit_delete ⟨"U", some [.col "id", .col "salary"]⟩ =
      "U" ++ " RETURNING " ++ String.intercalate ", "
        (flatten_columnlist [.col "id", .col "salary"]) :=
  (fb_C6 ⟨"U", some [.col "id", .col "salary"]⟩).1 [.col "id", .col "salary"] rfl

/-! ### Claim C7: default-source parsing during column reflection -/

/-- Python `str.startswith`, first argument the pattern. -/
def startswith : List Char → List Char → Bool
  | [], _ => true
  | _ :: _, [] => false
  | p :: ps, c :: cs => decide (p = c) && startswith ps cs

deriving instance DecidableEq for Except

/-- The default-source parsing step of `FBDialect.get_columns` (its
`fdefault` handling): a null catalog value gives no default; otherwise the
code asserts `row['fdefault'].upper().startswith('DEFAULT ')` (the failing
assert is modelled as `Except.error "AssertionError"`) and strips the first
8 characters of the original string. -/
def parse_default_source (fdefault : Option (List Char)) :
    Except String (Option (List Char)) :=
  match fdefault with
  | none => Except.ok none
  | some s =>
    if startswith "DEFAULT ".data (pyUpper s) then Except.ok (some (s.drop 8))
    else Except.error "AssertionError"

/-- Claim C7 counterexample: the catalog string `"default 5"` does not begin
with the 8-character `"DEFAULT "` (the claim's case-sensitive reading), yet
the code does not fail: the assert checks the upper-cased string, so the
parse succeeds and returns `"5"`. -/
theorem fb_C7_counterexample :
    startswith "DEFAULT ".data "default 5".data = false ∧
    parse_default_source (some "default 5".data) =
      Except.ok (some "5".data) := by
  refine ⟨?_, ?_⟩ <;> decide

/-- Claim C7 amended: for a non-null default source, if its upper-casing
begins with `"DEFAULT "` (a case-insensitive check of the 8-character
pattern) the reported default is the original string with the first 8
characters stripped; otherwise the operation fails with an assertion error
rather than returning; a null source yields the absence value. -/
theorem fb_C7_amended (s t : List Char)
    (hs : startswith "DEFAULT ".data (pyUpper s) = true)
    (ht : startswith "DEFAULT ".data (pyUpper t) = false) :
    parse_default_source (some s) = Except.ok (some (s.drop 8)) ∧
    parse_default_source (some t) = Except.error "AssertionError" ∧
    parse_default_source none = Except.ok none := by
  refine ⟨?_, ?_, rfl⟩
  · simp [parse_default_source, hs]
  · simp [parse_default_source, ht]

/-- Claim C7 witness: the mixed-case source `"default 5"` parses to `"5"`, a
pattern-less source fails the assertion, and a null source is absent. -/
theorem fb_C7_witness :
    parse_default_source (some "default 5".data) =
      Except.ok (some ("default 5".data.drop 8)) ∧
    parse_default_source (some "foo".data) =
      Except.error "AssertionError" ∧
    parse_default_source none = Except.ok none :=
  fb_C7_amended "default 5".data "foo".data (by decide) (by decide)

/-! ### Claim C9: the sequence-linkage heuristic -/

/-- `normalize_name` specialised to a non-null name, as the reflection code
applies it to catalog strings. -/
def normalize_str (s : String) : String :=
  String.mk ((normalize_name (some s.data)).getD s.data)

/-- `denormalize_name` specialised to a non-null name, as the reflection code
applies it before querying the backend. -/
def denormalize_str (s : String) : String :=
  String.mk ((denormalize_name (some s.data)).getD s.data)

/-- A row of the `rdb$dependencies` catalog table (the columns the heuristic
query reads). -/
structure DepRow where
  dependent_name : String
  dependent_type : Int
  depended_on_name : String
  depended_on_type : Int
  field_name : Option String
deriving DecidableEq

/-- A row of the `rdb$triggers` catalog table (the columns the heuristic
query reads). -/
structure TrigRow where
  trigger_name : String
  trigger_type : Int
deriving DecidableEq

/-- The catalog tables consulted by `FBDialect.get_column_sequence`. -/
structure RdbCatalog where
  dependencies : List DepRow
  triggers : List TrigRow
deriving DecidableEq

/-- The heuristic query of `FBDialect.get_column_sequence`: self-join of
`rdb$dependencies` (`tabdep` with `trigdep` on the same dependent) joined
with `rdb$triggers`, filtered to an insert trigger of the given table and
field whose trigger depends on a generator and has exactly two dependencies
in total; yields the generator names.  The nested-loop order fixes one
admissible SQL result order. -/
def gen_query_rows (cat : RdbCatalog) (tablename colname : String) : List String :=
  cat.dependencies.flatMap fun tabdep =>
    cat.dependencies.flatMap fun trigdep =>
      cat.triggers.filterMap fun trig =>
        if tabdep.dependent_name = trigdep.dependent_name
           ∧ trigdep.depended_on_type = 14
           ∧ trigdep.dependent_type = 2
           ∧ trig.trigger_name = tabdep.dependent_name
           ∧ tabdep.depended_on_name = tablename
           ∧ tabdep.depended_on_type = 0
           ∧ trig.trigger_type = 1
           ∧ tabdep.field_name = some colname
           ∧ (cat.dependencies.filter
                (fun d => d.dependent_name == trigdep.dependent_name)).length = 2
        then some trigdep.depended_on_name
        else none

/-- `FBDialect.get_column_sequence`: denormalize the table and column names,
run the heuristic query, `fetchone()` the result (the head of the row list),
and return the normalized generator name of that row, or `None` when the
query produced no rows. -/
def get_column_sequence (cat : RdbCatalog) (table_name column_name : String) :
    Option String :=
  let tablename := denormalize_str table_name
  let colname := denormalize_str column_name
  match gen_query_rows cat tablename colname with
  | [] => none
  | g :: _ => some (normalize_str g)

/-- The part of a reflected column record relevant to sequence linkage:
`sequence = none` models a record without a `'sequence'` entry. -/
structure ColRecord where
  name : String
  sequence : Option String
deriving DecidableEq

/-- The sequence-attachment step at the end of `FBDialect.get_columns`: for
a single-column primary key equal to this column, consult
`get_column_sequence` and attach the result only when it is not `None`. -/
def attach_column_sequence (cat : RdbCatalog) (pkey_cols : List String)
    (tablename : String) (col : ColRecord) : ColRecord :=
  if pkey_cols.length = 1 ∧ col.name = pkey_cols.headD "" then
    match get_column_sequence cat tablename col.name with
    | some s => { col with sequence := some s }
    | none => col
  else col

/-- An empty catalog, for witnesses. -/
def empty_catalog : RdbCatalog := ⟨[], []⟩

/-- A catalog in which two distinct insert triggers (each with exactly two
dependencies) link two different generators to the same table column. -/
def ambiguous_catalog : RdbCatalog :=
  { dependencies :=
      [⟨"T1", 2, "EMP", 0, some "ID"⟩, ⟨"T1", 2, "G1", 14, none⟩,
       ⟨"T2", 2, "EMP", 0, some "ID"⟩, ⟨"T2", 2, "G2", 14, none⟩],
    triggers := [⟨"T1", 1⟩, ⟨"T2", 1⟩] }

/-- Claim C9 counterexample: in `ambiguous_catalog` the heuristic query
matches two candidate generators (an ambiguous match), yet
`get_column_sequence` is not the absence value — it returns the first row's
generator. -/
theorem fb_C9_counterexample :
    (gen_query_rows ambiguous_catalog "EMP" "ID").length = 2 ∧
    get_column_sequence ambiguous_catalog "emp" "id" = some "g1" ∧
    get_column_sequence ambiguous_catalog "emp" "id" ≠ none := by
  refine ⟨?_, ?_, ?_⟩ <;> decide

/-- Claim C9 amended: when the heuristic query finds zero matching rows,
`get_column_sequence` yields the absence value and `get_columns` leaves the
column record without a sequence entry, without raising (the functions are
total); when the query finds one or more rows — including the ambiguous
case of several candidate generators — the first row's normalized generator
name is returned rather than the absence value. -/
theorem fb_C9_amended (cat : RdbCatalog) (tablename : String)
    (pkey_cols : List String) (col : ColRecord) :
    (gen_query_rows cat (denormalize_str tablename)
        (denormalize_str col.name) = [] →
      get_column_sequence cat tablename col.name = none ∧
      attach_column_sequence cat pkey_cols tablename col = col) ∧
    (∀ g rest, gen_query_rows cat (denormalize_str tablename)
        (denormalize_str col.name) = g :: rest →
      get_column_sequence cat tablename col.name = some (normalize_str g)) := by
  constructor
  · intro h
    have hseq : get_column_sequence cat tablename col.name = none := by
      simp only [get_column_sequence]
      rw [h]
    refine ⟨hseq, ?_⟩
    unfold attach_column_sequence
    split
    · rw [hseq]
    · rfl
  · intro g rest h
    simp only [get_column_sequence]
    rw [h]

/-- Claim C9 amended, witness: the empty catalog produces no rows, so no
sequence is attached to a concrete column record. -/
theorem fb_C9_witness :
    get_column_sequence empty_catalog "emp" "id" = none ∧
    attach_column_sequence empty_catalog ["id"] "EMP" ⟨"id", none⟩ =
      ⟨"id", none⟩ :=
  (fb_C9_amended empty_catalog "emp" ["id"] ⟨"id", none⟩).1 (by decide)

/-! ### Claim C10: foreign-key records keep matching column lists -/

/-- A row of the foreign-key reflection query of
`FBDialect.get_foreign_keys`: constraint name, local field, referenced
relation and referenced field. -/
structure FKRow where
  cname : String
  fname : String
  targetrname : String
  targetfname : String
deriving DecidableEq

/-- A reflected foreign-key record. -/
structure FKRec where
  name : Option String
  constrained_columns : List String
  referred_schema : Option String
  referred_table : Option String
  referred_columns : List String
deriving DecidableEq

/-- The defaultdict template of `get_foreign_keys`. -/
def empty_fk : FKRec := ⟨none, [], none, none, []⟩

/-- Python truthiness of `fk['name']` (absent or empty string is falsy). -/
def optStrFalsy : Option String → Bool
  | none => true
  | some s => decide (s = "")

/-- The per-row update of `get_foreign_keys`: on first sight of a constraint
set its name and referred table, then append one normalized local column and
one normalized referenced column. -/
def fk_step (row : FKRow) (fk0 : FKRec) : FKRec :=
  let fk := if optStrFalsy fk0.name then
      { fk0 with name := some (normalize_str row.cname),
                 referred_table := some (normalize_str row.targetrname) }
    else fk0
  { fk with
    constrained_columns := fk.constrained_columns ++ [normalize_str row.fname],
    referred_columns := fk.referred_columns ++ [normalize_str row.targetfname] }

/-- The row loop of `get_foreign_keys` over the defaultdict, modelled as an
association list keyed by the normalized constraint name. -/
def get_foreign_keys_fold : List FKRow → List (String × FKRec) → List (String × FKRec)
  | [], acc => acc
  | row :: rest, acc =>
    let cname := normalize_str row.cname
    let fk := (acc.lookup cname).getD empty_fk
    get_foreign_keys_fold rest (assocSet acc cname (fk_step row fk))

/-- `FBDialect.get_foreign_keys`: fold the query rows and return the record
values (`fks.values()`). -/
def get_foreign_keys (rows : List FKRow) : List FKRec :=
  (get_foreign_keys_fold rows []).map Prod.snd

/-- A record is balanced when its two column lists have equal length. -/
def fk_balanced (fk : FKRec) : Prop :=
  fk.constrained_columns.length = fk.referred_columns.length

theorem fk_balanced_empty : fk_balanced empty_fk := rfl

theorem fk_balanced_step (row : FKRow) {fk : FKRec} (h : fk_balanced fk) :
    fk_balanced (fk_step row fk) := by
  unfold fk_balanced fk_step
  split <;> simp [fk_balanced] at h ⊢ <;> omega

theorem lookup_snd_mem {α : Type} {l : List (String × α)} {k : String} {v : α}
    (h : l.lookup k = some v) : ∃ p ∈ l, p.2 = v := by
  induction l with
  | nil => simp [List.lookup] at h
  | cons hd t ih =>
    rw [List.lookup] at h
    cases hbeq : (k == hd.1) with
    | false =>
      rw [hbeq] at h
      obtain ⟨p, hp, hv⟩ := ih h
      exact ⟨p, List.mem_cons_of_mem hd hp, hv⟩
    | true =>
      rw [hbeq] at h
      exact ⟨hd, List.mem_cons_self hd t, by injection h⟩

theorem assocSet_snd_mem {α : Type} {l : List (String × α)} {key : String}
    {v : α} {p : String × α} (hp : p ∈ assocSet l key v) :
    p ∈ l ∨ p.2 = v := by
  induction l with
  | nil =>
    simp [assocSet] at hp
    right
    rw [hp]
  | cons hd t ih =>
    rw [assocSet] at hp
    split at hp
    · rcases List.mem_cons.mp hp with rfl | hmem
      · right; rfl
      · left; exact List.mem_cons_of_mem hd hmem
    · rcases List.mem_cons.mp hp with rfl | hmem
      · left; exact List.mem_cons_self hd t
      · rcases ih hmem with h | h
        · left; exact List.mem_cons_of_mem hd h
        · right; exact h

theorem fold_preserves_balanced (rows : List FKRow) :
    ∀ (acc : List (String × FKRec)), (∀ p ∈ acc, fk_balanced p.2) →
    ∀ p ∈ get_foreign_keys_fold rows acc, fk_balanced p.2 := by
  induction rows with
  | nil => intro acc hacc p hp; exact hacc p hp
  | cons row rest ih =>
    intro acc hacc p hp
    rw [get_foreign_keys_fold] at hp
    refine ih _ ?_ p hp
    intro q hq
    rcases assocSet_snd_mem hq with h | h
    · exact hacc q h
    · rw [h]
      apply fk_balanced_step
      cases hl : (acc.lookup (normalize_str row.cname)) with
      | none => simp [hl, Option.getD]; exact fk_balanced_empty
      | some v =>
        simp only [hl, Option.getD]
        obtain ⟨q', hq', hv⟩ := lookup_snd_mem hl
        rw [← hv]
        exact hacc q' hq'

/-- Claim C10: every foreign-key record produced by `get_foreign_keys` has
constrained-column and referred-column lists of equal length — each catalog
row appends exactly one normalized name to each list. -/
theorem fb_C10 (rows : List FKRow) :
    ∀ fk ∈ get_foreign_keys rows,
      fk.constrained_columns.length = fk.referred_columns.length := by
  intro fk hfk
  rw [get_foreign_keys, List.mem_map] at hfk
  obtain ⟨p, hp, rfl⟩ := hfk
  exact fold_preserves_balanced rows [] (by simp) p hp

/-- Claim C10 witness: a two-row constraint yields a record with two
constrained and two referred columns. -/
theorem fb_C10_witness :
    (FKRec.mk (some "fk1") ["a", "b"] none (some "t")
        ["x", "y"]).constrained_columns.length =
    (FKRec.mk (some "fk1") ["a", "b"] none (some "t")
        ["x", "y"]).referred_columns.length :=
  fb_C10 [⟨"FK1", "A", "T", "X"⟩, ⟨"FK1", "B", "T", "Y"⟩]
    (FKRec.mk (some "fk1") ["a", "b"] none (some "t") ["x", "y"]) (by decide)
